import Mathlib

/-!
Verification of the social-dashboard pipeline: a shallow embedding of the
repository's ingestion, sentiment-analysis, daily-analytics, content-generation
and scheduling routes, together with theorems settling the specification's
testable properties.

Conventions of the embedding:
* database tables become Lean lists of structure values; tenant scoping
  (`user_id` / `business_id` equality filters) is kept explicit;
* the external classifier / LLM collaborators are passed in as functions, so
  that theorems can quantify over their behaviour and count their invocations;
* JS numbers that only ever hold decimal values are modelled as `ℚ`,
  timestamps as `Int` (milliseconds compare like `Date` values), counts as `Nat`;
* subscription tiers stay as strings, mirroring `tierLimits[tier] || 0`.
-/

namespace Dashboard

/-! ## Scheduler (schedule route: POST / DELETE) -/

/-- A row of `scheduled_posts`.  `status` is one of
`"scheduled" | "published" | "failed" | "cancelled"`, kept as a string exactly
as the route writes it. -/
structure SchedPost where
  id : Nat
  business_id : Nat
  social_account_id : Nat
  platform : String
  content : String
  hashtags : List String
  image_url : Option String
  scheduled_time : Int
  status : String
  deriving DecidableEq

/-- The `scheduled_posts` table. -/
structure SchedState where
  posts : List SchedPost
  deriving DecidableEq

/-- `tierLimits` of the schedule route: starter 30, professional 100,
anything else falls to `|| 0`. -/
def tierLimitSched (tier : String) : Nat :=
  if tier = "starter" then 30 else if tier = "professional" then 100 else 0

/-- Count of rows with `status = 'scheduled'` for the business, i.e. the
query `.eq('business_id', ...).eq('status', 'scheduled')`. -/
def scheduledCount (st : SchedState) (bizId : Nat) : Nat :=
  (st.posts.filter (fun p => p.business_id == bizId && p.status == "scheduled")).length

/-- Outcome of the schedule POST handler (after auth / account checks). -/
inductive SchedOutcome where
  /-- 400 response: scheduled time must be in the future. -/
  | invalidTime : SchedOutcome
  /-- 429 response carrying the scheduled count, the tier limit and the tier. -/
  | limitReached (scheduled limit : Nat) (tier : String) : SchedOutcome
  /-- Row inserted. -/
  | created (post : SchedPost) : SchedOutcome
  deriving DecidableEq

/-- The row inserted by the schedule POST handler (`status: 'scheduled'`). -/
def mkScheduled (newId bizId accId : Nat) (platform content : String)
    (hashtags : List String) (imageUrl : Option String) (schedTime : Int) : SchedPost :=
  { id := newId, business_id := bizId, social_account_id := accId,
    platform := platform, content := content, hashtags := hashtags,
    image_url := imageUrl, scheduled_time := schedTime, status := "scheduled" }

/-- The schedule POST handler, from the time validation onwards: reject when
`scheduledDate <= new Date()`, then the tier-limit read-then-check, then the
insert of a `status: 'scheduled'` row. -/
def schedulePost (st : SchedState) (bizId : Nat) (tier : String) (accId : Nat)
    (platform content : String) (hashtags : List String) (imageUrl : Option String)
    (now schedTime : Int) (newId : Nat) : SchedState × SchedOutcome :=
  if schedTime ≤ now then (st, .invalidTime)
  else
    let cnt := scheduledCount st bizId
    let limit := tierLimitSched tier
    if cnt ≥ limit then (st, .limitReached cnt limit tier)
    else
      let post := mkScheduled newId bizId accId platform content hashtags imageUrl schedTime
      ({ posts := st.posts ++ [post] }, .created post)

/-- The DELETE handler: update `status` to `'cancelled'` on every row matching
the id and the business — with no condition on the current status. -/
def cancelPost (st : SchedState) (bizId postId : Nat) : SchedState :=
  { posts := st.posts.map (fun p =>
      if p.id == postId && p.business_id == bizId then { p with status := "cancelled" } else p) }

/-! ## Content generator (generate route: POST) -/

/-- `tierLimits` of the generate route: starter 50, professional 200,
anything else falls to `|| 0`. -/
def tierLimitGen (tier : String) : Nat :=
  if tier = "starter" then 50 else if tier = "professional" then 200 else 0

/-- One element of the `posts` array parsed from the model's reply, before the
route applies its defaults. -/
structure RawPost where
  content : String
  hashtags : Option (List String)
  cta : Option String
  imagePrompt : Option String
  bestTimeToPost : Option String
  estimatedEngagement : Option String
  deriving DecidableEq

/-- A post as returned to the caller, after `hashtags || []`,
`estimatedEngagement || 'medium'`, `bestTimeToPost || 'afternoon'`. -/
structure GenPost where
  content : String
  hashtags : List String
  cta : Option String
  imagePrompt : Option String
  bestTimeToPost : String
  estimatedEngagement : String
  deriving DecidableEq

/-- The route's transform of a parsed post. -/
def transformPost (raw : RawPost) : GenPost :=
  { content := raw.content, hashtags := raw.hashtags.getD [],
    cta := raw.cta, imagePrompt := raw.imagePrompt,
    bestTimeToPost := raw.bestTimeToPost.getD "afternoon",
    estimatedEngagement := raw.estimatedEngagement.getD "medium" }

/-- A row of `generated_posts` as the route inserts it. -/
structure SavedPost where
  business_id : Nat
  platform : String
  content : String
  hashtags : List String
  cta : Option String
  image_prompt : Option String
  best_time_to_post : String
  estimated_engagement : String
  status : String
  deriving DecidableEq

/-- The row saved for a generated post (always `status: 'draft'`). -/
def toSavedPost (bizId : Nat) (platform : String) (p : GenPost) : SavedPost :=
  { business_id := bizId, platform := platform, content := p.content,
    hashtags := p.hashtags, cta := p.cta, image_prompt := p.imagePrompt,
    best_time_to_post := p.bestTimeToPost,
    estimated_engagement := p.estimatedEngagement, status := "draft" }

/-- Tenant-visible generation state: this month's `api_usage.posts_generated`
and the `generated_posts` table. -/
structure GenState where
  usage : Nat
  savedPosts : List SavedPost
  deriving DecidableEq

/-- Outcome of the generate POST handler. -/
inductive GenOutcome where
  /-- 429 response carrying current usage, the tier limit and the tier. -/
  | quotaExceeded (usage limit : Nat) (tier : String) : GenOutcome
  /-- 200 response carrying the returned posts and the usage block. -/
  | success (posts : List GenPost) (usageCurrent usageLimit : Nat) : GenOutcome
  deriving DecidableEq

/-- The generate POST handler from the quota check onwards.  `llm` stands for
the Anthropic messages call (already parsed to a list of posts); the last
component of the result counts how many times it was invoked.  On success the
route saves every returned post as a draft and upserts
`posts_generated := currentUsage + postCount`. -/
def generateContent (st : GenState) (bizId : Nat) (tier : String) (postCount : Nat)
    (platform : String) (llm : Nat → List RawPost) : GenState × GenOutcome × Nat :=
  let currentUsage := st.usage
  let limit := tierLimitGen tier
  if currentUsage + postCount > limit then
    (st, .quotaExceeded currentUsage limit tier, 0)
  else
    let posts := (llm postCount).map transformPost
    let toSave := posts.map (toSavedPost bizId platform)
    ({ usage := currentUsage + postCount, savedPosts := st.savedPosts ++ toSave },
     .success posts (currentUsage + postCount) limit, 1)

/-! ## Mention store and ingestion (ingest route: POST) -/

/-- `sentiment_label` values permitted by the schema CHECK constraint; the
analyze route only ever writes a validated label, together with the score and
the reasoning, in one update. -/
inductive Label where
  | positive : Label
  | negative : Label
  | neutral : Label
  deriving DecidableEq

/-- The sentiment triple `{sentiment_score, sentiment_label,
sentiment_reasoning}` attached to a mention by the analyze route.
`NUMERIC(3,1)` scores are modelled as `ℚ`. -/
structure SentimentInfo where
  score : ℚ
  label : Label
  reasoning : String
  deriving DecidableEq

/-- A row of `mentions`.  `posted_at` is a timestamp in seconds. -/
structure Mention where
  id : Nat
  user_id : Nat
  social_account_id : Nat
  platform : String
  content : String
  author : String
  author_handle : Option String
  post_url : Option String
  posted_at : Nat
  sentiment : Option SentimentInfo
  engagement_count : Nat
  deriving DecidableEq

/-- A normalized mention produced by a platform fetcher (`SocialMention`). -/
structure FetchedMention where
  content : String
  author : String
  authorHandle : Option String
  postUrl : Option String
  postedAt : Nat
  engagementCount : Option Nat
  deriving DecidableEq

/-- The dedup lookup of the ingest route: match on tenant, account, content,
author and posted_at. -/
def matchesFetched (uid accId : Nat) (f : FetchedMention) (m : Mention) : Bool :=
  m.user_id == uid && m.social_account_id == accId && m.content == f.content &&
    m.author == f.author && m.posted_at == f.postedAt

/-- The row the ingest route inserts for a fetched mention (no sentiment). -/
def insertRow (uid accId : Nat) (platform : String) (f : FetchedMention)
    (newId : Nat) : Mention :=
  { id := newId, user_id := uid, social_account_id := accId, platform := platform,
    content := f.content, author := f.author, author_handle := f.authorHandle,
    post_url := f.postUrl, posted_at := f.postedAt, sentiment := none,
    engagement_count := f.engagementCount.getD 0 }

/-- The `{fetched, inserted, skipped}` counts returned by the ingest route. -/
structure IngestCounts where
  fetched : Nat
  inserted : Nat
  skipped : Nat
  deriving DecidableEq

/-- The per-mention loop of the ingest route: look up an existing row; if found
and `forceRefresh` is false, skip, else insert.  Returns the store plus
(inserted, skipped) counts. -/
def ingestLoop (uid accId : Nat) (platform : String) (force : Bool) :
    List Mention → List FetchedMention → Nat → List Mention × Nat × Nat
  | store, [], _ => (store, 0, 0)
  | store, f :: rest, nid =>
    if (store.find? (matchesFetched uid accId f)).isSome && !force then
      let r := ingestLoop uid accId platform force store rest nid
      (r.1, r.2.1, r.2.2 + 1)
    else
      let r := ingestLoop uid accId platform force
        (store ++ [insertRow uid accId platform f nid]) rest (nid + 1)
      (r.1, r.2.1 + 1, r.2.2)

/-- The ingest POST handler from the dedup loop onwards. -/
def ingestMentions (store : List Mention) (uid accId : Nat) (platform : String)
    (force : Bool) (fetchedList : List FetchedMention) (nextId : Nat) :
    List Mention × IngestCounts :=
  let r := ingestLoop uid accId platform force store fetchedList nextId
  (r.1, ⟨fetchedList.length, r.2.1, r.2.2⟩)

/-! ## Batch analysis orchestrator (analyze route: POST) -/

/-- Per-item result of the by-IDs mode of the analyze route. -/
structure ItemResult where
  mentionId : Nat
  success : Bool
  cached : Bool
  sentiment : Option SentimentInfo
  error : Option String
  deriving DecidableEq

/-- Result pushed for an already-analyzed mention: the stored values, flagged
`cached: true`, without calling the classifier. -/
def cachedItem (mid : Nat) (info : SentimentInfo) : ItemResult :=
  ⟨mid, true, true, some info, none⟩

/-- Result pushed after a fresh classification. -/
def freshItem (mid : Nat) (info : SentimentInfo) : ItemResult :=
  ⟨mid, true, false, some info, none⟩

/-- Result pushed when classification (or the update) fails. -/
def failedItem (mid : Nat) (msg : String) : ItemResult :=
  ⟨mid, false, false, none, some msg⟩

/-- Result pushed when the mention is not found for the tenant. -/
def notFoundItem (mid : Nat) : ItemResult :=
  failedItem mid "Mention not found or access denied"

/-- The update statement of the analyze route: set the sentiment triple on the
rows matching the id and the tenant. -/
def applySentiment (uid mid : Nat) (info : SentimentInfo) (store : List Mention) :
    List Mention :=
  store.map (fun x =>
    if x.id == mid && x.user_id == uid then { x with sentiment := some info } else x)

/-- One iteration of the by-IDs loop: fetch the mention scoped to the tenant;
absent → failure item; already scored → cached item without classifying;
otherwise classify and either persist or record the error.  The last component
lists the ids for which the classifier was invoked. -/
def stepAnalyze (f : String → Except String SentimentInfo) (uid : Nat)
    (store : List Mention) (mid : Nat) : List Mention × ItemResult × List Nat :=
  match store.find? (fun x => x.id == mid && x.user_id == uid) with
  | none => (store, notFoundItem mid, [])
  | some m =>
    match m.sentiment with
    | some info => (store, cachedItem mid info, [])
    | none =>
      match f m.content with
      | .ok info => (applySentiment uid mid info store, freshItem mid info, [mid])
      | .error e => (store, failedItem mid e, [mid])

/-- The by-IDs mode of the analyze route: process the caller-supplied ids in
order, returning the store, the per-item results and the classifier call log. -/
def processByIds (f : String → Except String SentimentInfo) (uid : Nat) :
    List Mention → List Nat → List Mention × List ItemResult × List Nat
  | store, [] => (store, [], [])
  | store, mid :: rest =>
    let r := stepAnalyze f uid store mid
    let rr := processByIds f uid r.1 rest
    (rr.1, r.2.1 :: rr.2.1, r.2.2 ++ rr.2.2)

/-- Per-item result of the batch-unanalyzed mode. -/
structure BatchItem where
  mentionId : Nat
  success : Bool
  sentiment : Option SentimentInfo
  error : Option String
  deriving DecidableEq

/-- The selection of the batch-unanalyzed mode: up to `batchSize` mentions of
the tenant with `sentiment_score IS NULL`. -/
def selectUnanalyzed (store : List Mention) (uid batchSize : Nat) : List Mention :=
  (store.filter (fun x => x.user_id == uid && x.sentiment.isNone)).take batchSize

/-- The classify-and-persist loop of the batch-unanalyzed mode. -/
def batchGo (f : String → Except String SentimentInfo) (uid : Nat) :
    List Mention → List Mention → List Mention × List BatchItem
  | store, [] => (store, [])
  | store, m :: rest =>
    match f m.content with
    | .ok info =>
      let r := batchGo f uid (applySentiment uid m.id info store) rest
      (r.1, ⟨m.id, true, some info, none⟩ :: r.2)
    | .error e =>
      let r := batchGo f uid store rest
      (r.1, ⟨m.id, false, none, some e⟩ :: r.2)

/-- The aggregate block of the batch-unanalyzed response. -/
structure BatchResponse where
  results : List BatchItem
  analyzed : Nat
  failed : Nat
  remaining : Nat
  deriving DecidableEq

/-- The batch-unanalyzed mode of the analyze route: select, classify each,
return per-item results plus `{analyzed, failed, remaining}` where
`remaining = max(0, selected - successes)`.  `none` models the early
`No unanalyzed mentions found` return. -/
def batchAnalyze (f : String → Except String SentimentInfo) (uid : Nat)
    (store : List Mention) (batchSize : Nat) : List Mention × Option BatchResponse :=
  let selected := selectUnanalyzed store uid batchSize
  if selected.isEmpty then (store, none)
  else
    let r := batchGo f uid store selected
    let succ := r.2.countP (fun i => i.success)
    (r.1, some ⟨r.2, succ, r.2.countP (fun i => !i.success), selected.length - succ⟩)

/-! ## Daily analytics aggregator (update_sentiment_analytics trigger) -/

/-- `DATE(posted_at)`: the calendar day of a timestamp in seconds (UTC). -/
def dateOf (t : Nat) : Nat := t / 86400

/-- A row of `sentiment_analytics`, unique per `(user_id, date)`. -/
structure AnalyticsRow where
  user_id : Nat
  date : Nat
  positive_count : Nat
  negative_count : Nat
  neutral_count : Nat
  average_score : ℚ
  total_mentions : Nat
  deriving DecidableEq

/-- The trigger's WHERE clause: same tenant, same calendar day,
`sentiment_score IS NOT NULL`. -/
def scoredOn (uid date : Nat) (m : Mention) : Bool :=
  m.user_id == uid && dateOf m.posted_at == date && m.sentiment.isSome

/-- `COUNT(*) FILTER (WHERE sentiment_label = lab)`. -/
def labelCount (lab : Label) (ms : List Mention) : Nat :=
  ms.countP (fun m => m.sentiment.any (fun i => i.label == lab))

/-- `SUM(sentiment_score)` over the rows at hand. -/
def sumScores (ms : List Mention) : ℚ :=
  ((ms.filterMap Mention.sentiment).map SentimentInfo.score).sum

/-- The SELECT of the trigger: exact aggregates over all sentiment-scored
mentions of the tenant on the day (`AVG = SUM / COUNT`). -/
def computeRow (ms : List Mention) (uid date : Nat) : AnalyticsRow :=
  { user_id := uid, date := date,
    positive_count := labelCount .positive (ms.filter (scoredOn uid date)),
    negative_count := labelCount .negative (ms.filter (scoredOn uid date)),
    neutral_count := labelCount .neutral (ms.filter (scoredOn uid date)),
    average_score := sumScores (ms.filter (scoredOn uid date)) /
      ((ms.filter (scoredOn uid date)).length : ℚ),
    total_mentions := (ms.filter (scoredOn uid date)).length }

/-- Lookup of the `(user_id, date)` row. -/
def findRow (rows : List AnalyticsRow) (uid date : Nat) : Option AnalyticsRow :=
  rows.find? (fun r => r.user_id == uid && r.date == date)

/-- `INSERT ... ON CONFLICT (user_id, date) DO UPDATE`: overwrite the matching
row if one exists, else append. -/
def upsertRow (rows : List AnalyticsRow) (r : AnalyticsRow) : List AnalyticsRow :=
  if rows.any (fun x => x.user_id == r.user_id && x.date == r.date) then
    rows.map (fun x => if x.user_id == r.user_id && x.date == r.date then r else x)
  else rows ++ [r]

/-- The mention table together with the derived analytics table. -/
structure PipelineState where
  mentions : List Mention
  analytics : List AnalyticsRow

/-- The trigger's firing condition: sentiment was added or its score
changed. -/
def shouldFire (old : Option SentimentInfo) (info : SentimentInfo) : Bool :=
  match old with
  | none => true
  | some o => !(o.score == info.score)

/-- One sentiment update through the analyze route followed by the trigger:
update the mention's sentiment triple, and when the trigger fires, recompute
and upsert the day's analytics row for the mention's tenant and day. -/
def applyUpdate (s : PipelineState) (uid mid : Nat) (info : SentimentInfo) :
    PipelineState :=
  match s.mentions.find? (fun x => x.id == mid && x.user_id == uid) with
  | none => s
  | some m =>
    if shouldFire m.sentiment info then
      { mentions := applySentiment uid mid info s.mentions,
        analytics := upsertRow s.analytics
          (computeRow (applySentiment uid mid info s.mentions) m.user_id
            (dateOf m.posted_at)) }
    else { mentions := applySentiment uid mid info s.mentions, analytics := s.analytics }

/-- A sequence of sentiment updates, applied in order for one tenant. -/
def runUpdates (s : PipelineState) (uid : Nat) :
    List (Nat × SentimentInfo) → PipelineState
  | [] => s
  | u :: us => runUpdates (applyUpdate s uid u.1 u.2) uid us

/-- A sequence of updates each hitting a mention of tenant `t` posted on day
`d` and each firing the trigger, relative to the evolving state. -/
inductive ValidSeq (t d : Nat) : PipelineState → List (Nat × SentimentInfo) → Prop where
  | nil (s : PipelineState) : ValidSeq t d s []
  | cons (s : PipelineState) (u : Nat × SentimentInfo)
      (us : List (Nat × SentimentInfo)) (m : Mention)
      (hfind : s.mentions.find? (fun x => x.id == u.1 && x.user_id == t) = some m)
      (hdate : dateOf m.posted_at = d)
      (hfire : shouldFire m.sentiment u.2 = true)
      (htail : ValidSeq t d (applyUpdate s t u.1 u.2) us) :
      ValidSeq t d s (u :: us)

/-! ## Sentiment classifier client (analyzeSentimentWithClaude) -/

/-- Parsed JSON values, as produced by `JSON.parse` (an external builtin). -/
inductive Json where
  | num (q : ℚ) : Json
  | str (s : String) : Json
  | bool (b : Bool) : Json
  | null : Json
  | arr (xs : List Json) : Json
  | obj (fields : List (String × Json)) : Json

/-- JS property access `result.k` on a parsed object. -/
def getField (j : Json) (k : String) : Option Json :=
  match j with
  | .obj fields => (fields.find? (fun p => p.1 == k)).map (fun p => p.2)
  | _ => none

/-- `typeof v === 'number'` view of a field. -/
def asNum (x : Option Json) : Option ℚ :=
  match x with
  | some (.num q) => some q
  | _ => none

/-- `typeof v === 'string'` view of a field. -/
def asStr (x : Option Json) : Option String :=
  match x with
  | some (.str s) => some s
  | _ => none

/-- The value the client returns: the parsed object cast to `SentimentResult`.
Only score, label and reasoning are checked; `confidence` is carried through
untouched (it may be absent or of any shape). -/
structure VSent where
  score : ℚ
  label : String
  reasoning : String
  confidence : Option Json

/-- The validation of the classifier client: reject unless `score` is a
number, `label` is one of the three literals, and `reasoning` is a string —
exactly the checks of the route, which never inspects ranges or
`confidence`. -/
def validateSentiment (j : Json) : Option VSent :=
  match asNum (getField j "score"), asStr (getField j "label"),
      asStr (getField j "reasoning") with
  | some q, some l, some r =>
    if l = "positive" ∨ l = "negative" ∨ l = "neutral" then
      some ⟨q, l, r, getField j "confidence"⟩
    else none
  | _, _, _ => none

/-- The backtick character (avoided as a literal). -/
def btick : Char := Char.ofNat 96

/-- The characters of the fence marker followed by `json`. -/
def fence7 : List Char := [btick, btick, btick, 'j', 's', 'o', 'n']

/-- The characters of a bare fence marker. -/
def ticks3 : List Char := [btick, btick, btick]

/-- JS whitespace as far as the replies at hand use it. -/
def isWs (c : Char) : Bool :=
  c == ' ' || c == '\t' || c == '\n' || c == '\r'

/-- `String.prototype.trim` on the character list view. -/
def trimChars (l : List Char) : List Char :=
  ((l.reverse.dropWhile isWs).reverse).dropWhile isWs

/-- Consume the optional newline of the `\n?` part of the replace patterns. -/
def dropNl (l : List Char) : List Char :=
  match l with
  | [] => []
  | c :: r => if c == '\n' then r else c :: r

/-- Global replace of the json code-fence pattern (with optional trailing
newline) by the empty string, scanning left to right. -/
def stripJson : List Char → List Char
  | [] => []
  | c :: rest =>
    if fence7.isPrefixOf (c :: rest) then stripJson (dropNl (List.drop 6 rest))
    else c :: stripJson rest
termination_by l => l.length
decreasing_by
  all_goals simp_wf
  have h1 : (dropNl (List.drop 6 r)).length ≤ (List.drop 6 r).length := by
    unfold dropNl
    cases List.drop 6 r with
    | nil => simp
    | cons a t => by_cases h : (a == '\n') = true <;> simp [h]
  have h2 : (List.drop 6 r).length ≤ r.length := by
    rw [List.length_drop]
    omega
  omega

/-- Global replace of the bare code-fence pattern (with optional trailing
newline) by the empty string, scanning left to right. -/
def stripTicks : List Char → List Char
  | [] => []
  | c :: rest =>
    if ticks3.isPrefixOf (c :: rest) then stripTicks (dropNl (List.drop 2 rest))
    else c :: stripTicks rest
termination_by l => l.length
decreasing_by
  all_goals simp_wf
  have h1 : (dropNl (List.drop 2 r)).length ≤ (List.drop 2 r).length := by
    unfold dropNl
    cases List.drop 2 r with
    | nil => simp
    | cons a t => by_cases h : (a == '\n') = true <;> simp [h]
  have h2 : (List.drop 2 r).length ≤ r.length := by
    rw [List.length_drop]
    omega
  omega

/-- The fence clean-up of the client: trim, then if the reply starts with the
json fence apply both global replaces and trim again; if it starts with a bare
fence apply the bare replace and trim again; else leave the trimmed reply. -/
def cleanResponse (t : List Char) : List Char :=
  if fence7.isPrefixOf (trimChars t) then
    trimChars (stripTicks (stripJson (trimChars t)))
  else if ticks3.isPrefixOf (trimChars t) then trimChars (stripTicks (trimChars t))
  else trimChars t

/-! ## Concrete sample data used by witnesses and counterexamples -/

/-- A parsed reply whose score is 42 and whose confidence is 5: both outside
the declared ranges, yet accepted by the validation. -/
def jBad : Json :=
  Json.obj [("score", Json.num 42), ("label", Json.str "positive"),
    ("reasoning", Json.str "ok"), ("confidence", Json.num 5)]

/-- Formalisation of C9 as stated (range part): every accepted result has a
score in [0,10] and a numeric confidence in [0,1]. -/
def classifierClaimHolds : Prop :=
  ∀ j r, validateSentiment j = some r →
    (0 ≤ r.score ∧ r.score ≤ 10) ∧
    ∃ c : ℚ, r.confidence = some (Json.num c) ∧ 0 ≤ c ∧ c ≤ 1

/-- A sample fetched mention. -/
def sampleFetched : FetchedMention :=
  { content := "love it", author := "ann", authorHandle := none, postUrl := none,
    postedAt := 1000, engagementCount := some 3 }

/-- A sample unscored mention. -/
def plainMention (i uid : Nat) : Mention :=
  { id := i, user_id := uid, social_account_id := 2, platform := "instagram",
    content := "c", author := "a", author_handle := none, post_url := none,
    posted_at := 1000, sentiment := none, engagement_count := 0 }

/-- Fifteen unscored mentions of tenant 0. -/
def store15 : List Mention := (List.range 15).map (fun i => plainMention i 0)

/-- A sample stored sentiment. -/
def scoredInfo : SentimentInfo := ⟨8, .positive, "nice"⟩

/-- The pipeline state holding one unscored mention of tenant 0 posted on
day 0 and an empty analytics table. -/
def pipeState0 : PipelineState := ⟨[plainMention 1 0], []⟩

/-- A sample already-scored mention of tenant 7. -/
def scoredMention : Mention :=
  { id := 5, user_id := 7, social_account_id := 2, platform := "instagram",
    content := "great", author := "b", author_handle := none, post_url := none,
    posted_at := 1000, sentiment := some scoredInfo, engagement_count := 1 }

/-- Formalisation of the C8 scenario claim as stated: 15 unscored mentions and
batch size 10 give 10 results, each a success with sentiment or a failure with
an error, and a remaining count of at most 5. -/
def batchScenarioClaim : Prop :=
  ∀ (f : String → Except String SentimentInfo) (uid : Nat) (store : List Mention),
    (store.filter (fun x => x.user_id == uid && x.sentiment.isNone)).length = 15 →
    ∃ resp, (batchAnalyze f uid store 10).2 = some resp ∧
      resp.results.length = 10 ∧
      (∀ r ∈ resp.results,
        (r.success = true ∧ r.sentiment.isSome) ∨ (r.success = false ∧ r.error.isSome)) ∧
      resp.remaining ≤ 5

/-- A sample scheduled-posts row. -/
def samplePost (i biz : Nat) (stat : String) : SchedPost :=
  { id := i, business_id := biz, social_account_id := 2, platform := "instagram",
    content := "c", hashtags := [], image_url := none, scheduled_time := 9,
    status := stat }

/-- `n` sample rows of business 1 in status `scheduled`. -/
def schedRows (n : Nat) : List SchedPost :=
  (List.range n).map (fun i => samplePost i 1 "scheduled")

/-- A table holding one already-published post of business 0. -/
def publishedState : SchedState := ⟨[samplePost 1 0 "published"]⟩

/-- A table holding a `failed` post and a `scheduled` post of business 0. -/
def mixedState : SchedState := ⟨[samplePost 1 0 "failed", samplePost 2 0 "scheduled"]⟩

/-- Formalisation of C10 as stated: cancelling never moves a post whose status
is `published` or `failed` into `cancelled`. -/
def cancelOnlyFromScheduled : Prop :=
  ∀ (st : SchedState) (bizId postId : Nat), ∀ p ∈ st.posts,
    (p.status = "published" ∨ p.status = "failed") →
    ∀ q ∈ (cancelPost st bizId postId).posts, q.id = p.id → q.status ≠ "cancelled"

end Dashboard

namespace Dashboard

/-! ## Theorems: content generator -/

/-- C4: a generation request with `currentMonthUsage + postCount` over the tier
limit is rejected with the 429 quota payload reporting usage and limit, with
zero LLM invocations and the state unchanged; a request within the limit
invokes the LLM exactly once. -/
theorem generate_quota_gate (st : GenState) (bizId : Nat) (tier : String)
    (postCount : Nat) (platform : String) (llm : Nat → List RawPost) :
    (st.usage + postCount > tierLimitGen tier →
      generateContent st bizId tier postCount platform llm =
        (st, .quotaExceeded st.usage (tierLimitGen tier) tier, 0)) ∧
    (st.usage + postCount ≤ tierLimitGen tier →
      (generateContent st bizId tier postCount platform llm).2.2 = 1) := by
  constructor
  · intro h
    simp [generateContent, h]
  · intro h
    simp [generateContent, Nat.not_lt.mpr h]

/-- C4 witness: a starter tenant at 45/50 asking for 10 posts is rejected with
usage 45 and limit 50 without an LLM call, while one at 40/50 asking for 10
triggers exactly one LLM call. -/
theorem generate_quota_gate_witness :
    generateContent ⟨45, []⟩ 1 "starter" 10 "instagram" (fun _ => []) =
      (⟨45, []⟩, .quotaExceeded 45 50 "starter", 0) ∧
    (generateContent ⟨40, []⟩ 1 "starter" 10 "instagram" (fun _ => [])).2.2 = 1 :=
  ⟨(generate_quota_gate ⟨45, []⟩ 1 "starter" 10 "instagram" (fun _ => [])).1 (by decide),
   (generate_quota_gate ⟨40, []⟩ 1 "starter" 10 "instagram" (fun _ => [])).2 (by decide)⟩

/-- C5: on a successful generation call the monthly usage is set to
`currentUsage + postCount` — independent of how many posts the model actually
returned — and every newly persisted row is a draft carrying the content of one
returned post, one row per returned post. -/
theorem generate_usage_and_drafts (st : GenState) (bizId : Nat) (tier : String)
    (postCount : Nat) (platform : String) (llm : Nat → List RawPost)
    (h : st.usage + postCount ≤ tierLimitGen tier) :
    (generateContent st bizId tier postCount platform llm).1.usage = st.usage + postCount ∧
    (generateContent st bizId tier postCount platform llm).1.savedPosts =
      st.savedPosts ++ ((llm postCount).map transformPost).map (toSavedPost bizId platform) ∧
    (generateContent st bizId tier postCount platform llm).1.savedPosts.length =
      st.savedPosts.length + (llm postCount).length ∧
    (∀ p ∈ (generateContent st bizId tier postCount platform llm).1.savedPosts,
      p ∈ st.savedPosts ∨ (p.status = "draft" ∧ ∃ r ∈ llm postCount, p.content = r.content)) := by
  have hn : ¬ st.usage + postCount > tierLimitGen tier := Nat.not_lt.mpr h
  refine ⟨?_, ?_, ?_, ?_⟩
  · simp [generateContent, hn]
  · simp [generateContent, hn]
  · simp [generateContent, hn]
  · intro p hp
    simp only [generateContent, hn, if_neg, ite_false, List.mem_append] at hp
    rcases hp with hp | hp
    · exact Or.inl hp
    · right
      simp only [List.map_map, List.mem_map, Function.comp] at hp
      obtain ⟨r, hr, rfl⟩ := hp
      exact ⟨rfl, r, hr, rfl⟩

/-- C5 witness: requesting 5 posts while the model returns only 2 still moves
usage from 0 to 5, and persists exactly the 2 returned posts as drafts. -/
theorem generate_usage_and_drafts_witness :
    (0 : Nat) + 5 ≤ tierLimitGen "starter" ∧
    (generateContent ⟨0, []⟩ 1 "starter" 5 "instagram"
        (fun _ => [⟨"a", none, none, none, none, none⟩,
                   ⟨"b", none, none, none, none, none⟩])).1.usage = 0 + 5 ∧
    (generateContent ⟨0, []⟩ 1 "starter" 5 "instagram"
        (fun _ => [⟨"a", none, none, none, none, none⟩,
                   ⟨"b", none, none, none, none, none⟩])).1.savedPosts.length =
      List.length ([] : List SavedPost) + 2 := by
  have h := generate_usage_and_drafts ⟨0, []⟩ 1 "starter" 5 "instagram"
    (fun _ => [⟨"a", none, none, none, none, none⟩,
               ⟨"b", none, none, none, none, none⟩]) (by decide)
  exact ⟨by decide, h.1, h.2.2.1⟩

/-! ## Theorems: scheduler -/

/-- C6: a scheduling request whose time is not strictly in the future is
rejected with the 400 validation outcome and the table is unchanged; a request
strictly in the future never yields that outcome. -/
theorem schedule_time_validation (st : SchedState) (bizId : Nat) (tier : String)
    (accId : Nat) (platform content : String) (hashtags : List String)
    (imageUrl : Option String) (now schedTime : Int) (newId : Nat) :
    (schedTime ≤ now →
      schedulePost st bizId tier accId platform content hashtags imageUrl now schedTime newId =
        (st, .invalidTime)) ∧
    (now < schedTime →
      (schedulePost st bizId tier accId platform content hashtags imageUrl now schedTime newId).2 ≠
        SchedOutcome.invalidTime) := by
  constructor
  · intro h
    simp [schedulePost, h]
  · intro h
    have hn : ¬ schedTime ≤ now := not_le.mpr h
    simp only [schedulePost, hn, if_false, ite_false]
    by_cases hc : scheduledCount st bizId ≥ tierLimitSched tier <;> simp [hc]

/-- C6 witness: scheduling for time 5 at now 5 is rejected leaving the empty
table empty, and scheduling for time 6 at now 5 is not the validation error. -/
theorem schedule_time_validation_witness :
    schedulePost ⟨[]⟩ 1 "starter" 2 "instagram" "hi" [] none 5 5 9 = (⟨[]⟩, .invalidTime) ∧
    (schedulePost ⟨[]⟩ 1 "starter" 2 "instagram" "hi" [] none 5 6 9).2 ≠
      SchedOutcome.invalidTime :=
  ⟨(schedule_time_validation ⟨[]⟩ 1 "starter" 2 "instagram" "hi" [] none 5 5 9).1 (by decide),
   (schedule_time_validation ⟨[]⟩ 1 "starter" 2 "instagram" "hi" [] none 5 6 9).2 (by decide)⟩

/-- C7: with a valid future time, a request finding the scheduled count at (or
beyond) the tier limit is rejected with the 429 outcome reporting that count
and the limit, the table unchanged; a request finding the count strictly below
the limit inserts one `status: 'scheduled'` row, raising the count by one. -/
theorem schedule_limit_boundary (st : SchedState) (bizId : Nat) (tier : String)
    (accId : Nat) (platform content : String) (hashtags : List String)
    (imageUrl : Option String) (now schedTime : Int) (newId : Nat)
    (ht : now < schedTime) :
    (scheduledCount st bizId ≥ tierLimitSched tier →
      schedulePost st bizId tier accId platform content hashtags imageUrl now schedTime newId =
        (st, .limitReached (scheduledCount st bizId) (tierLimitSched tier) tier)) ∧
    (scheduledCount st bizId < tierLimitSched tier →
      ∃ post,
        schedulePost st bizId tier accId platform content hashtags imageUrl now schedTime newId =
          ({ posts := st.posts ++ [post] }, .created post) ∧
        post.status = "scheduled" ∧ post.business_id = bizId ∧
        scheduledCount
          (schedulePost st bizId tier accId platform content hashtags imageUrl
            now schedTime newId).1 bizId = scheduledCount st bizId + 1) := by
  have hn : ¬ schedTime ≤ now := not_le.mpr ht
  constructor
  · intro hc
    simp [schedulePost, hn, hc]
  · intro hc
    have hc2 : ¬ scheduledCount st bizId ≥ tierLimitSched tier := Nat.not_le.mpr hc
    have heq : schedulePost st bizId tier accId platform content hashtags imageUrl
        now schedTime newId =
        (SchedState.mk (st.posts ++
            [mkScheduled newId bizId accId platform content hashtags imageUrl schedTime]),
         .created (mkScheduled newId bizId accId platform content hashtags imageUrl
            schedTime)) := by
      simp only [schedulePost, hn, if_false, ite_false]
      rw [if_neg]
      exact fun hco => hc2 (by simpa [scheduledCount] using hco)
    refine ⟨mkScheduled newId bizId accId platform content hashtags imageUrl schedTime,
      heq, rfl, rfl, ?_⟩
    rw [heq]
    simp [scheduledCount, List.filter_append, mkScheduled]

/-- C7 witness: a starter tenant with 30 scheduled rows is rejected with
`(scheduled, limit) = (30, 30)` and the count stays 30; with 29 rows the insert
succeeds and the count becomes 30. -/
theorem schedule_limit_boundary_witness :
    (5 : Int) < 6 ∧
    scheduledCount ⟨schedRows 30⟩ 1 ≥ tierLimitSched "starter" ∧
    schedulePost ⟨schedRows 30⟩ 1 "starter" 2 "instagram" "hi" [] none 5 6 99 =
      (⟨schedRows 30⟩, .limitReached 30 30 "starter") ∧
    ∃ post,
      schedulePost ⟨schedRows 29⟩ 1 "starter" 2 "instagram" "hi" [] none 5 6 99 =
        ({ posts := schedRows 29 ++ [post] }, .created post) ∧
      post.status = "scheduled" ∧ post.business_id = 1 ∧
      scheduledCount
        (schedulePost ⟨schedRows 29⟩ 1 "starter" 2 "instagram" "hi" [] none 5 6 99).1 1 =
        scheduledCount ⟨schedRows 29⟩ 1 + 1 := by
  have h30 : scheduledCount ⟨schedRows 30⟩ 1 = 30 := by decide
  have h1 := (schedule_limit_boundary ⟨schedRows 30⟩ 1 "starter" 2 "instagram"
    "hi" [] none 5 6 99 (by decide)).1 (by decide)
  have h2 := (schedule_limit_boundary ⟨schedRows 29⟩ 1 "starter" 2 "instagram"
    "hi" [] none 5 6 99 (by decide)).2 (by decide)
  refine ⟨by decide, by decide, ?_, h2⟩
  rw [h1, h30]
  simp [tierLimitSched]

/-! ## Theorems: cancel -/

/-- C10 counterexample: the DELETE handler has no status guard — cancelling a
post that is already `published` flips it to `cancelled`. -/
theorem cancel_status_counterexample : ¬ cancelOnlyFromScheduled := by
  intro h
  have hp : samplePost 1 0 "published" ∈ publishedState.posts := by decide
  have hq : samplePost 1 0 "cancelled" ∈ (cancelPost publishedState 0 1).posts := by decide
  exact h publishedState 0 1 _ hp (Or.inl rfl) _ hq rfl rfl

/-- C10 amended: the cancel operation retains the row and flips the status of
every post matching the id and the business to `cancelled` regardless of its
current status (`published` and `failed` posts included); posts not matching
are left untouched. -/
theorem cancel_flip_amended (st : SchedState) (bizId postId : Nat) :
    (cancelPost st bizId postId).posts.length = st.posts.length ∧
    (∀ p ∈ st.posts, p.id = postId → p.business_id = bizId →
      { p with status := "cancelled" } ∈ (cancelPost st bizId postId).posts) ∧
    (∀ p ∈ st.posts, p.id ≠ postId ∨ p.business_id ≠ bizId →
      p ∈ (cancelPost st bizId postId).posts) := by
  refine ⟨by simp [cancelPost], ?_, ?_⟩
  · intro p hp h1 h2
    have hm := List.mem_map_of_mem (fun q => if q.id == postId && q.business_id == bizId
      then { q with status := "cancelled" } else q) hp
    have hcond : (p.id == postId && p.business_id == bizId) = true := by simp [h1, h2]
    simp only [cancelPost]
    simpa [hcond] using hm
  · intro p hp h
    have hm := List.mem_map_of_mem (fun q => if q.id == postId && q.business_id == bizId
      then { q with status := "cancelled" } else q) hp
    have hcond : (p.id == postId && p.business_id == bizId) = false := by
      rcases h with h | h <;> simp [h]
    simp only [cancelPost]
    simpa [hcond] using hm

/-- C10 amended witness: cancelling post 1 of business 0 in a two-row table
flips the matching `failed` row to `cancelled` and keeps the other row. -/
theorem cancel_flip_amended_witness :
    (cancelPost mixedState 0 1).posts.length = 2 ∧
    { samplePost 1 0 "failed" with status := "cancelled" } ∈
      (cancelPost mixedState 0 1).posts ∧
    samplePost 2 0 "scheduled" ∈ (cancelPost mixedState 0 1).posts := by
  have h := cancel_flip_amended mixedState 0 1
  refine ⟨?_, ?_, ?_⟩
  · rw [h.1]; decide
  · exact h.2.1 (samplePost 1 0 "failed") (by decide) rfl rfl
  · exact h.2.2 (samplePost 2 0 "scheduled") (by decide) (Or.inl (by decide))

/-! ## Theorems: ingestion dedup -/

/-- C2: ingesting the same mention twice sequentially with `forceRefresh =
false`, starting from a store with no matching row, inserts exactly one row:
the first call inserts it, the second finds it, leaves the store untouched and
reports it as skipped. -/
theorem ingest_dedup_idempotent (store : List Mention) (uid accId : Nat)
    (platform : String) (f : FetchedMention) (nid1 nid2 : Nat)
    (h : store.countP (matchesFetched uid accId f) = 0) :
    (ingestMentions store uid accId platform false [f] nid1).2 = ⟨1, 1, 0⟩ ∧
    (ingestMentions (ingestMentions store uid accId platform false [f] nid1).1
        uid accId platform false [f] nid2).1 =
      (ingestMentions store uid accId platform false [f] nid1).1 ∧
    (ingestMentions (ingestMentions store uid accId platform false [f] nid1).1
        uid accId platform false [f] nid2).2 = ⟨1, 0, 1⟩ ∧
    (ingestMentions (ingestMentions store uid accId platform false [f] nid1).1
        uid accId platform false [f] nid2).1.countP (matchesFetched uid accId f) = 1 := by
  have hnone : store.find? (matchesFetched uid accId f) = none := by
    rw [List.find?_eq_none]
    intro x hx hpx
    have := List.countP_eq_zero.mp h x hx
    exact this hpx
  have hrowmatch : matchesFetched uid accId f (insertRow uid accId platform f nid1) = true := by
    simp [matchesFetched, insertRow]
  have h1 : (ingestMentions store uid accId platform false [f] nid1).1 =
      store ++ [insertRow uid accId platform f nid1] := by
    simp [ingestMentions, ingestLoop, hnone]
  have hfound : ((store ++ [insertRow uid accId platform f nid1]).find?
      (matchesFetched uid accId f)).isSome = true := by
    rw [List.find?_isSome]
    exact ⟨insertRow uid accId platform f nid1, by simp, hrowmatch⟩
  refine ⟨by simp [ingestMentions, ingestLoop, hnone], ?_, ?_, ?_⟩
  · rw [h1]
    simp [ingestMentions, ingestLoop, hrowmatch]
  · rw [h1]
    simp [ingestMentions, ingestLoop, hrowmatch]
  · rw [h1]
    have : (ingestMentions (store ++ [insertRow uid accId platform f nid1])
        uid accId platform false [f] nid2).1 =
        store ++ [insertRow uid accId platform f nid1] := by
      simp [ingestMentions, ingestLoop, hrowmatch]
    rw [this, List.countP_append, h]
    simp [hrowmatch]

/-- C2 witness: ingesting the sample mention twice into an empty store yields
counts `{1,1,0}` then `{1,0,1}` and a single matching row. -/
theorem ingest_dedup_idempotent_witness :
    (List.countP (matchesFetched 7 2 sampleFetched) [] = 0) ∧
    (ingestMentions [] 7 2 "instagram" false [sampleFetched] 0).2 = ⟨1, 1, 0⟩ ∧
    (ingestMentions (ingestMentions [] 7 2 "instagram" false [sampleFetched] 0).1
        7 2 "instagram" false [sampleFetched] 1).2 = ⟨1, 0, 1⟩ ∧
    (ingestMentions (ingestMentions [] 7 2 "instagram" false [sampleFetched] 0).1
        7 2 "instagram" false [sampleFetched] 1).1.countP
      (matchesFetched 7 2 sampleFetched) = 1 := by
  have h := ingest_dedup_idempotent [] 7 2 "instagram" sampleFetched 0 1 (by decide)
  exact ⟨by decide, h.1, h.2.2.1, h.2.2.2⟩

/-! ## Theorems: analyze route, by-IDs mode (C3) -/

/-- In a store with pairwise-distinct ids, a member is determined by its id. -/
theorem mention_eq_of_id_eq {store : List Mention}
    (hnd : (store.map Mention.id).Nodup) {m x : Mention} (hm : m ∈ store)
    (hx : x ∈ store) (hid : x.id = m.id) : x = m :=
  List.inj_on_of_nodup_map hnd hx hm hid

/-- The tenant-scoped `.single()` fetch finds the member with the queried id. -/
theorem find_mention_self {uid : Nat} (store : List Mention) (m : Mention)
    (hnd : (store.map Mention.id).Nodup) (hm : m ∈ store) (huser : m.user_id = uid) :
    store.find? (fun x => x.id == m.id && x.user_id == uid) = some m := by
  induction store with
  | nil => cases hm
  | cons a l ih =>
    by_cases hpa : (a.id == m.id && a.user_id == uid) = true
    · have ha : a.id = m.id := by
        have h2 := hpa
        simp only [Bool.and_eq_true, beq_iff_eq] at h2
        exact h2.1
      have heq : a = m := mention_eq_of_id_eq hnd hm (List.mem_cons_self a l) ha
      subst heq
      rw [List.find?_cons]
      simp [huser]
    · have hml : m ∈ l := by
        rcases List.mem_cons.mp hm with h | h
        · exfalso
          apply hpa
          simp [← h, huser]
        · exact h
      have hnd2 : (l.map Mention.id).Nodup := by
        simpa using (List.nodup_cons.mp (by simpa using hnd)).2
      rw [List.find?_cons]
      simp only [hpa]
      exact ih hnd2 hml

/-- Sentiment updates do not change the id column. -/
theorem applySentiment_map_id (uid mid : Nat) (info : SentimentInfo)
    (store : List Mention) :
    (applySentiment uid mid info store).map Mention.id = store.map Mention.id := by
  unfold applySentiment
  rw [List.map_map]
  apply List.map_congr_left
  intro x _
  simp only [Function.comp_apply]
  by_cases h : (x.id == mid && x.user_id == uid) = true
  · rw [if_pos h]
  · rw [if_neg h]

/-- A step of the by-IDs loop on an id other than `m.id` keeps `m` in the
store, keeps the id column, and only ever calls the classifier on that id. -/
theorem stepAnalyze_other (f : String → Except String SentimentInfo) (uid : Nat)
    (store : List Mention) (mid : Nat) (m : Mention)
    (hm : m ∈ store) (hmid : m.id ≠ mid) :
    m ∈ (stepAnalyze f uid store mid).1 ∧
    (stepAnalyze f uid store mid).1.map Mention.id = store.map Mention.id ∧
    ∀ c ∈ (stepAnalyze f uid store mid).2.2, c = mid := by
  cases hfind : store.find? (fun x => x.id == mid && x.user_id == uid) with
  | none =>
    have hred : stepAnalyze f uid store mid = (store, notFoundItem mid, []) := by
      simp [stepAnalyze, hfind]
    rw [hred]
    exact ⟨hm, rfl, by simp⟩
  | some m0 =>
    cases hs0 : m0.sentiment with
    | some info0 =>
      have hred : stepAnalyze f uid store mid = (store, cachedItem mid info0, []) := by
        simp [stepAnalyze, hfind, hs0]
      rw [hred]
      exact ⟨hm, rfl, by simp⟩
    | none =>
      cases hf : f m0.content with
      | ok info =>
        have hred : stepAnalyze f uid store mid =
            (applySentiment uid mid info store, freshItem mid info, [mid]) := by
          simp [stepAnalyze, hfind, hs0, hf]
        rw [hred]
        refine ⟨?_, applySentiment_map_id uid mid info store, by simp⟩
        have hmem := List.mem_map_of_mem (fun x =>
          if x.id == mid && x.user_id == uid then { x with sentiment := some info }
          else x) hm
        have hcond : (m.id == mid && m.user_id == uid) = false := by
          simp [hmid]
        simpa [applySentiment, hcond] using hmem
      | error e =>
        have hred : stepAnalyze f uid store mid = (store, failedItem mid e, [mid]) := by
          simp [stepAnalyze, hfind, hs0, hf]
        rw [hred]
        exact ⟨hm, rfl, by simp⟩

/-- A step of the by-IDs loop on the id of an already-scored mention returns
the cached item, leaves the store untouched, and does not call the
classifier. -/
theorem stepAnalyze_cached (f : String → Except String SentimentInfo) (uid : Nat)
    (store : List Mention) (m : Mention) (info : SentimentInfo)
    (hnd : (store.map Mention.id).Nodup) (hm : m ∈ store)
    (hs : m.sentiment = some info) (huser : m.user_id = uid) :
    stepAnalyze f uid store m.id = (store, cachedItem m.id info, []) := by
  have hfind := find_mention_self store m hnd hm huser
  simp [stepAnalyze, hfind, hs]

/-- Induction core for C3: processing any id list keeps the id column, keeps
an already-scored tenant mention in the store, never invokes the classifier on
its id, and fills every result slot for its id with the cached item. -/
theorem processByIds_cached_core (f : String → Except String SentimentInfo)
    (uid : Nat) (m : Mention) (info : SentimentInfo)
    (hs : m.sentiment = some info) (huser : m.user_id = uid) :
    ∀ (ids : List Nat) (store : List Mention),
      (store.map Mention.id).Nodup → m ∈ store →
      (processByIds f uid store ids).1.map Mention.id = store.map Mention.id ∧
      m ∈ (processByIds f uid store ids).1 ∧
      m.id ∉ (processByIds f uid store ids).2.2 ∧
      (∀ k : Nat, ids[k]? = some m.id →
        (processByIds f uid store ids).2.1[k]? = some (cachedItem m.id info)) := by
  intro ids
  induction ids with
  | nil =>
    intro store hnd hm
    exact ⟨rfl, hm, by simp [processByIds], by intro k hk; simp at hk⟩
  | cons mid rest ih =>
    intro store hnd hm
    by_cases hmid : mid = m.id
    · subst hmid
      have hstep := stepAnalyze_cached f uid store m info hnd hm hs huser
      have hrest := ih store hnd hm
      have hred : processByIds f uid store (m.id :: rest) =
          ((processByIds f uid store rest).1,
            cachedItem m.id info :: (processByIds f uid store rest).2.1,
            (processByIds f uid store rest).2.2) := by
        simp only [processByIds, hstep, List.nil_append]
      rw [hred]
      refine ⟨hrest.1, hrest.2.1, hrest.2.2.1, ?_⟩
      intro k hk
      cases k with
      | zero => simp
      | succ k2 =>
        simp only [List.getElem?_cons_succ] at hk ⊢
        exact hrest.2.2.2 k2 hk
    · have hstep := stepAnalyze_other f uid store mid m hm (fun h => hmid h.symm)
      have hnd2 : ((stepAnalyze f uid store mid).1.map Mention.id).Nodup := by
        rw [hstep.2.1]
        exact hnd
      have hrest := ih (stepAnalyze f uid store mid).1 hnd2 hstep.1
      have hred : processByIds f uid store (mid :: rest) =
          ((processByIds f uid (stepAnalyze f uid store mid).1 rest).1,
            (stepAnalyze f uid store mid).2.1 ::
              (processByIds f uid (stepAnalyze f uid store mid).1 rest).2.1,
            (stepAnalyze f uid store mid).2.2 ++
              (processByIds f uid (stepAnalyze f uid store mid).1 rest).2.2) := by
        simp only [processByIds]
      rw [hred]
      refine ⟨hrest.1.trans hstep.2.1, hrest.2.1, ?_, ?_⟩
      · simp only [List.mem_append, not_or]
        constructor
        · intro hc
          exact hmid ((hstep.2.2 m.id hc).symm)
        · exact hrest.2.2.1
      · intro k hk
        cases k with
        | zero =>
          rw [List.getElem?_cons_zero] at hk
          rw [Option.some.injEq] at hk
          exact absurd hk hmid
        | succ k2 =>
          simp only [List.getElem?_cons_succ] at hk ⊢
          exact hrest.2.2.2 k2 hk

/-- C3: a mention whose sentiment is already set is immune to the by-IDs mode:
the store keeps it unchanged, the classifier is never invoked on its id, every
result slot for its id is the cached item carrying the stored values — and the
batch-unanalyzed selection never picks it. -/
theorem analyze_cached_immutable (f : String → Except String SentimentInfo)
    (uid : Nat) (store : List Mention) (ids : List Nat) (m : Mention)
    (info : SentimentInfo) (batchSize : Nat)
    (hnd : (store.map Mention.id).Nodup) (hm : m ∈ store)
    (hs : m.sentiment = some info) (huser : m.user_id = uid) :
    (∀ x ∈ (processByIds f uid store ids).1, x.id = m.id → x = m) ∧
    m.id ∉ (processByIds f uid store ids).2.2 ∧
    (∀ k : Nat, ids[k]? = some m.id →
      (processByIds f uid store ids).2.1[k]? = some (cachedItem m.id info)) ∧
    m ∉ selectUnanalyzed store uid batchSize := by
  have hcore := processByIds_cached_core f uid m info hs huser ids store hnd hm
  refine ⟨?_, hcore.2.2.1, hcore.2.2.2, ?_⟩
  · intro x hx hid
    have hnd2 : ((processByIds f uid store ids).1.map Mention.id).Nodup := by
      rw [hcore.1]
      exact hnd
    exact mention_eq_of_id_eq hnd2 hcore.2.1 hx hid
  · intro hsel
    have hmem := List.mem_of_mem_take hsel
    have hpred := List.of_mem_filter hmem
    simp [hs] at hpred

/-- C3 witness: instantiated for a scored mention of tenant 7, a sibling
unscored mention and the id list `[5, 2]`. -/
theorem analyze_cached_immutable_witness :
    ([scoredMention, plainMention 2 7].map Mention.id).Nodup ∧
    scoredMention ∈ [scoredMention, plainMention 2 7] ∧
    scoredMention.sentiment = some scoredInfo ∧
    scoredMention.user_id = 7 ∧
    (∀ x ∈ (processByIds (fun _ => Except.ok ⟨1, .neutral, "n"⟩) 7
        [scoredMention, plainMention 2 7] [5, 2]).1,
      x.id = scoredMention.id → x = scoredMention) ∧
    scoredMention.id ∉ (processByIds (fun _ => Except.ok ⟨1, .neutral, "n"⟩) 7
      [scoredMention, plainMention 2 7] [5, 2]).2.2 ∧
    (∀ k : Nat, [5, 2][k]? = some scoredMention.id →
      (processByIds (fun _ => Except.ok ⟨1, .neutral, "n"⟩) 7
        [scoredMention, plainMention 2 7] [5, 2]).2.1[k]? =
        some (cachedItem scoredMention.id scoredInfo)) ∧
    scoredMention ∉ selectUnanalyzed [scoredMention, plainMention 2 7] 7 10 := by
  have h := analyze_cached_immutable (fun _ => Except.ok ⟨1, .neutral, "n"⟩) 7
    [scoredMention, plainMention 2 7] [5, 2] scoredMention scoredInfo 10
    (by decide) (by decide) (by decide) (by decide)
  exact ⟨by decide, by decide, by decide, by decide, h.1, h.2.1, h.2.2.1, h.2.2.2⟩

/-! ## Theorems: analyze route, batch-unanalyzed mode (C8) -/

/-- The classify loop emits one item per selected mention, each item a success
carrying a sentiment or a failure carrying an error, and successes plus
failures exhaust the batch. -/
theorem batchGo_spec (f : String → Except String SentimentInfo) (uid : Nat) :
    ∀ (sel store : List Mention),
      (batchGo f uid store sel).2.length = sel.length ∧
      (∀ r ∈ (batchGo f uid store sel).2,
        (r.success = true ∧ r.sentiment.isSome) ∨
          (r.success = false ∧ r.error.isSome)) ∧
      (batchGo f uid store sel).2.countP (fun i => i.success) +
        (batchGo f uid store sel).2.countP (fun i => !i.success) = sel.length := by
  intro sel
  induction sel with
  | nil =>
    intro store
    exact ⟨rfl, by simp [batchGo], rfl⟩
  | cons m rest ih =>
    intro store
    cases hf : f m.content with
    | ok info =>
      have hred : batchGo f uid store (m :: rest) =
          ((batchGo f uid (applySentiment uid m.id info store) rest).1,
            ⟨m.id, true, some info, none⟩ ::
              (batchGo f uid (applySentiment uid m.id info store) rest).2) := by
        simp only [batchGo, hf]
      have hr := ih (applySentiment uid m.id info store)
      rw [hred]
      refine ⟨by simp [hr.1], ?_, ?_⟩
      · intro r hr2
        rcases List.mem_cons.mp hr2 with h | h
        · subst h
          exact Or.inl ⟨rfl, rfl⟩
        · exact hr.2.1 r h
      · rw [List.countP_cons_of_pos, List.countP_cons_of_neg]
        · rw [Nat.add_right_comm, hr.2.2, List.length_cons]
        · simp
        · simp
    | error e =>
      have hred : batchGo f uid store (m :: rest) =
          ((batchGo f uid store rest).1,
            ⟨m.id, false, none, some e⟩ :: (batchGo f uid store rest).2) := by
        simp only [batchGo, hf]
      have hr := ih store
      rw [hred]
      refine ⟨by simp [hr.1], ?_, ?_⟩
      · intro r hr2
        rcases List.mem_cons.mp hr2 with h | h
        · subst h
          exact Or.inr ⟨rfl, rfl⟩
        · exact hr.2.1 r h
      · rw [List.countP_cons_of_neg, List.countP_cons_of_pos]
        · rw [← Nat.add_assoc, hr.2.2, List.length_cons]
        · simp
        · simp

/-- C8 counterexample: with 15 unscored mentions, batch size 10 and a
classifier failing on every item, the response's `remaining` is 10, not at
most 5 — the route computes `remaining` as selected-minus-successes, ignoring
the 5 unselected unscored mentions. -/
theorem batch_remaining_counterexample : ¬ batchScenarioClaim := by
  intro h
  obtain ⟨resp, heq, hlen10, hshape, hle⟩ :=
    h (fun _ => Except.error "boom") 0 store15 (by decide)
  have hmap : (batchAnalyze (fun _ => Except.error "boom") 0 store15 10).2.map
      (fun r => r.remaining) = some 10 := by decide
  rw [heq] at hmap
  have h10 : resp.remaining = 10 := by simpa using hmap
  rw [h10] at hle
  exact absurd hle (by decide)

/-- C8 amended: a batch-unanalyzed call with batch size 10 against 15 unscored
mentions returns exactly 10 per-item results, each a success with a sentiment
or a failure with an error string, and `remaining` equal to the number of
failed items of the batch — anywhere between 0 and 10, not bounded by 5 and
not counting the 5 unselected unscored mentions. -/
theorem batch_fifteen_amended (f : String → Except String SentimentInfo)
    (uid : Nat) (store : List Mention)
    (hlen : (store.filter (fun x => x.user_id == uid && x.sentiment.isNone)).length = 15) :
    ∃ resp, (batchAnalyze f uid store 10).2 = some resp ∧
      resp.results.length = 10 ∧
      (∀ r ∈ resp.results,
        (r.success = true ∧ r.sentiment.isSome) ∨
          (r.success = false ∧ r.error.isSome)) ∧
      resp.remaining = resp.results.countP (fun i => !i.success) ∧
      resp.analyzed + resp.remaining = 10 ∧
      resp.remaining ≤ 10 := by
  have hsellen : (selectUnanalyzed store uid 10).length = 10 := by
    simp [selectUnanalyzed, List.length_take, hlen]
  have hne : (selectUnanalyzed store uid 10).isEmpty = false := by
    rw [List.isEmpty_eq_false]
    intro hnil
    rw [hnil] at hsellen
    simp at hsellen
  have hred : (batchAnalyze f uid store 10).2 = some
      ⟨(batchGo f uid store (selectUnanalyzed store uid 10)).2,
        (batchGo f uid store (selectUnanalyzed store uid 10)).2.countP
          (fun i => i.success),
        (batchGo f uid store (selectUnanalyzed store uid 10)).2.countP
          (fun i => !i.success),
        (selectUnanalyzed store uid 10).length -
          (batchGo f uid store (selectUnanalyzed store uid 10)).2.countP
            (fun i => i.success)⟩ := by
    simp [batchAnalyze, hne]
  have hspec := batchGo_spec f uid (selectUnanalyzed store uid 10) store
  have hsum := hspec.2.2
  rw [hsellen] at hsum
  refine ⟨_, hred, ?_, hspec.2.1, ?_, ?_, ?_⟩
  · dsimp only
    rw [hspec.1, hsellen]
  · dsimp only
    rw [hsellen]
    omega
  · dsimp only
    rw [hsellen]
    omega
  · dsimp only
    rw [hsellen]
    omega

/-- C8 amended witness: instantiated with the 15-mention store and a
classifier succeeding on every item. -/
theorem batch_fifteen_amended_witness :
    (store15.filter (fun x => x.user_id == 0 && x.sentiment.isNone)).length = 15 ∧
    ∃ resp,
      (batchAnalyze (fun _ => Except.ok ⟨7, .positive, "good"⟩) 0 store15 10).2 =
        some resp ∧
      resp.results.length = 10 ∧
      (∀ r ∈ resp.results,
        (r.success = true ∧ r.sentiment.isSome) ∨
          (r.success = false ∧ r.error.isSome)) ∧
      resp.remaining = resp.results.countP (fun i => !i.success) ∧
      resp.analyzed + resp.remaining = 10 ∧
      resp.remaining ≤ 10 :=
  ⟨by decide,
   batch_fifteen_amended (fun _ => Except.ok ⟨7, .positive, "good"⟩) 0 store15
     (by decide)⟩

/-! ## Theorems: sentiment classifier client (C9) -/

/-- `typeof === 'number'` succeeds exactly on numeric fields. -/
theorem asNum_eq_some_iff (x : Option Json) (q : ℚ) :
    asNum x = some q ↔ x = some (Json.num q) := by
  cases x with
  | none => simp [asNum]
  | some v => cases v <;> simp [asNum]

/-- `typeof === 'string'` succeeds exactly on string fields. -/
theorem asStr_eq_some_iff (x : Option Json) (l : String) :
    asStr x = some l ↔ x = some (Json.str l) := by
  cases x with
  | none => simp [asStr]
  | some v => cases v <;> simp [asStr]

/-- What an accepted classifier result guarantees — and all it guarantees:
the three checked fields are as returned, the label is in the enum, and the
confidence field is passed through unvalidated. -/
theorem validateSentiment_some_spec (j : Json) (r : VSent)
    (hr : validateSentiment j = some r) :
    getField j "score" = some (Json.num r.score) ∧
    getField j "label" = some (Json.str r.label) ∧
    (r.label = "positive" ∨ r.label = "negative" ∨ r.label = "neutral") ∧
    getField j "reasoning" = some (Json.str r.reasoning) ∧
    r.confidence = getField j "confidence" := by
  unfold validateSentiment at hr
  cases hn : asNum (getField j "score") with
  | none =>
    rw [hn] at hr
    exact absurd hr (by simp)
  | some q =>
    cases hl : asStr (getField j "label") with
    | none =>
      rw [hn, hl] at hr
      exact absurd hr (by simp)
    | some l =>
      cases hre : asStr (getField j "reasoning") with
      | none =>
        rw [hn, hl, hre] at hr
        exact absurd hr (by simp)
      | some s =>
        rw [hn, hl, hre] at hr
        dsimp only at hr
        by_cases henum : l = "positive" ∨ l = "negative" ∨ l = "neutral"
        · rw [if_pos henum] at hr
          injection hr with h2
          subst h2
          exact ⟨(asNum_eq_some_iff _ _).mp hn, (asStr_eq_some_iff _ _).mp hl,
            henum, (asStr_eq_some_iff _ _).mp hre, rfl⟩
        · rw [if_neg henum] at hr
          cases hr

/-- The validation accepts exactly when score is a number, label is one of the
three literals and reasoning is a string — with no condition on the score's
range and none on confidence. -/
theorem validateSentiment_isSome_iff (j : Json) :
    (validateSentiment j).isSome ↔
      (∃ q, getField j "score" = some (Json.num q)) ∧
      (∃ l, getField j "label" = some (Json.str l) ∧
        (l = "positive" ∨ l = "negative" ∨ l = "neutral")) ∧
      (∃ s, getField j "reasoning" = some (Json.str s)) := by
  constructor
  · intro hsome
    obtain ⟨r, hr⟩ := Option.isSome_iff_exists.mp hsome
    have hspec := validateSentiment_some_spec j r hr
    exact ⟨⟨r.score, hspec.1⟩, ⟨r.label, hspec.2.1, hspec.2.2.1⟩,
      ⟨r.reasoning, hspec.2.2.2.1⟩⟩
  · rintro ⟨⟨q, hq⟩, ⟨l, hl, henum⟩, ⟨s, hs2⟩⟩
    have hn : asNum (getField j "score") = some q := (asNum_eq_some_iff _ _).mpr hq
    have hlb : asStr (getField j "label") = some l := (asStr_eq_some_iff _ _).mpr hl
    have hre : asStr (getField j "reasoning") = some s :=
      (asStr_eq_some_iff _ _).mpr hs2
    unfold validateSentiment
    rw [hn, hlb, hre]
    dsimp only
    rw [if_pos henum]
    rfl

/-- Unfolding equation of the scan: nil case. -/
theorem stripJson_nil : stripJson [] = [] := by
  rw [stripJson.eq_def]

/-- Unfolding equation of the scan: no match at the head. -/
theorem stripJson_cons_no (c : Char) (rest : List Char)
    (h : fence7.isPrefixOf (c :: rest) = false) :
    stripJson (c :: rest) = c :: stripJson rest := by
  rw [stripJson.eq_def]
  simp [h]

/-- Unfolding equation of the scan: match at the head. -/
theorem stripJson_cons_yes (c : Char) (rest : List Char)
    (h : fence7.isPrefixOf (c :: rest) = true) :
    stripJson (c :: rest) = stripJson (dropNl (List.drop 6 rest)) := by
  rw [stripJson.eq_def]
  simp [h]

/-- Unfolding equation of the scan: nil case. -/
theorem stripTicks_nil : stripTicks [] = [] := by
  rw [stripTicks.eq_def]

/-- Unfolding equation of the scan: no match at the head. -/
theorem stripTicks_cons_no (c : Char) (rest : List Char)
    (h : ticks3.isPrefixOf (c :: rest) = false) :
    stripTicks (c :: rest) = c :: stripTicks rest := by
  rw [stripTicks.eq_def]
  simp [h]

/-- Unfolding equation of the scan: match at the head. -/
theorem stripTicks_cons_yes (c : Char) (rest : List Char)
    (h : ticks3.isPrefixOf (c :: rest) = true) :
    stripTicks (c :: rest) = stripTicks (dropNl (List.drop 2 rest)) := by
  rw [stripTicks.eq_def]
  simp [h]

/-- The json-fence replace copies fence-free text unchanged. -/
theorem stripJson_append_no_tick (l t : List Char) (hl : btick ∉ l) :
    stripJson (l ++ t) = l ++ stripJson t := by
  induction l with
  | nil => simp
  | cons c l2 ih =>
    have hc : c ≠ btick := fun h => hl (by rw [h]; exact List.mem_cons_self _ _)
    have hcb : (btick == c) = false := beq_eq_false_iff_ne.mpr (Ne.symm hc)
    have hpre : fence7.isPrefixOf (c :: (l2 ++ t)) = false := by
      simp [fence7, List.isPrefixOf, hcb]
    rw [List.cons_append, stripJson_cons_no c (l2 ++ t) hpre,
      ih (fun hm => hl (List.mem_cons_of_mem c hm))]
    rfl

/-- The bare-fence replace copies fence-free text unchanged. -/
theorem stripTicks_append_no_tick (l t : List Char) (hl : btick ∉ l) :
    stripTicks (l ++ t) = l ++ stripTicks t := by
  induction l with
  | nil => simp
  | cons c l2 ih =>
    have hc : c ≠ btick := fun h => hl (by rw [h]; exact List.mem_cons_self _ _)
    have hcb : (btick == c) = false := beq_eq_false_iff_ne.mpr (Ne.symm hc)
    have hpre : ticks3.isPrefixOf (c :: (l2 ++ t)) = false := by
      simp [ticks3, List.isPrefixOf, hcb]
    rw [List.cons_append, stripTicks_cons_no c (l2 ++ t) hpre,
      ih (fun hm => hl (List.mem_cons_of_mem c hm))]
    rfl

/-- The json-fence replace consumes a leading fence with its newline. -/
theorem stripJson_fence_head (x : List Char) :
    stripJson (fence7 ++ '\n' :: x) = stripJson x := by
  have hshape : fence7 ++ '\n' :: x =
      btick :: ([btick, btick, 'j', 's', 'o', 'n'] ++ '\n' :: x) := rfl
  have hpre : fence7.isPrefixOf (fence7 ++ '\n' :: x) = true := by
    simp only [List.isPrefixOf_iff_prefix]
    exact List.prefix_append _ _
  rw [hshape] at hpre
  rw [hshape, stripJson_cons_yes _ _ hpre]
  have hdrop : List.drop 6 ([btick, btick, 'j', 's', 'o', 'n'] ++ '\n' :: x) =
      '\n' :: x := rfl
  rw [hdrop]
  have hnl : dropNl ('\n' :: x) = x := by simp [dropNl]
  rw [hnl]

/-- The json-fence replace leaves a bare trailing fence alone. -/
theorem stripJson_nlticks : stripJson ('\n' :: ticks3) = '\n' :: ticks3 := by
  rw [stripJson_cons_no _ _ (by decide)]
  have h1 : ticks3 = btick :: btick :: btick :: [] := rfl
  rw [h1, stripJson_cons_no _ _ (by decide), stripJson_cons_no _ _ (by decide),
    stripJson_cons_no _ _ (by decide), stripJson_nil]

/-- The bare-fence replace removes the trailing fence, keeping the newline. -/
theorem stripTicks_nlticks : stripTicks ('\n' :: ticks3) = ['\n'] := by
  rw [stripTicks_cons_no _ _ (by decide)]
  have h1 : ticks3 = btick :: [btick, btick] := rfl
  rw [h1, stripTicks_cons_yes _ _ (by decide)]
  have h2 : dropNl (List.drop 2 [btick, btick]) = [] := rfl
  rw [h2, stripTicks_nil]

/-- Trimming ignores a trailing newline. -/
theorem trimChars_append_nl (l : List Char) :
    trimChars (l ++ ['\n']) = trimChars l := by
  unfold trimChars
  have h1 : (l ++ ['\n']).reverse = '\n' :: l.reverse := by simp
  have hw : isWs '\n' = true := by decide
  rw [h1, List.dropWhile_cons, hw]
  simp

/-- Trimming is the identity when both ends are non-whitespace. -/
theorem trimChars_eq_self_outer (c d : Char) (mid : List Char)
    (hc : isWs c = false) (hd : isWs d = false) :
    trimChars (c :: (mid ++ [d])) = c :: (mid ++ [d]) := by
  unfold trimChars
  have h1 : (c :: (mid ++ [d])).reverse = d :: (mid.reverse ++ [c]) := by simp
  rw [h1, List.dropWhile_cons, hd]
  simp only [Bool.false_eq_true, if_false, ite_false]
  have h2 : (d :: (mid.reverse ++ [c])).reverse = c :: (mid ++ [d]) := by simp
  rw [h2, List.dropWhile_cons, hc]
  simp

/-- The clean-up of a reply wrapped in a json code fence recovers the trimmed
body, for bodies free of backticks. -/
theorem cleanResponse_fenced (body : List Char) (hb : btick ∉ body) :
    cleanResponse (fence7 ++ '\n' :: (body ++ '\n' :: ticks3)) = trimChars body := by
  have hshape2 : fence7 ++ '\n' :: (body ++ '\n' :: ticks3) =
      btick :: ((([btick, btick, 'j', 's', 'o', 'n', '\n'] ++ body) ++
        ['\n', btick, btick]) ++ [btick]) := by
    simp [fence7, ticks3]
  have htrim : trimChars (fence7 ++ '\n' :: (body ++ '\n' :: ticks3)) =
      fence7 ++ '\n' :: (body ++ '\n' :: ticks3) := by
    rw [hshape2]
    exact trimChars_eq_self_outer _ _ _ (by decide) (by decide)
  have hpre : fence7.isPrefixOf (fence7 ++ '\n' :: (body ++ '\n' :: ticks3)) = true := by
    simp only [List.isPrefixOf_iff_prefix]
    exact List.prefix_append _ _
  unfold cleanResponse
  rw [htrim, hpre]
  simp only [if_true, ite_true]
  rw [stripJson_fence_head, stripJson_append_no_tick body ('\n' :: ticks3) hb,
    stripJson_nlticks, stripTicks_append_no_tick body ('\n' :: ticks3) hb,
    stripTicks_nlticks]
  exact trimChars_append_nl body

/-- C9 counterexample: the validation accepts a parsed reply with score 42 and
confidence 5, both outside the declared ranges — neither the score range nor
confidence is checked. -/
theorem classifier_validation_counterexample : ¬ classifierClaimHolds := by
  intro h
  have heq : validateSentiment jBad =
      some ⟨42, "positive", "ok", some (Json.num 5)⟩ := rfl
  have hrange := (h jBad _ heq).1.2
  norm_num at hrange

/-- C9 amended: the client strips code-fence markup before parsing (a fenced
reply is reduced to its trimmed body); after parsing it accepts exactly when
score is a number, label is one of positive, negative, neutral, and reasoning
is a string, returning those fields unchanged together with the raw confidence
field — the score's range is not checked and confidence is not validated at
all. -/
theorem classifier_validation_amended :
    (∀ body : List Char, btick ∉ body →
      cleanResponse (fence7 ++ '\n' :: (body ++ '\n' :: ticks3)) = trimChars body) ∧
    (∀ j r, validateSentiment j = some r →
      getField j "score" = some (Json.num r.score) ∧
      getField j "label" = some (Json.str r.label) ∧
      (r.label = "positive" ∨ r.label = "negative" ∨ r.label = "neutral") ∧
      getField j "reasoning" = some (Json.str r.reasoning) ∧
      r.confidence = getField j "confidence") ∧
    (∀ j, (validateSentiment j).isSome ↔
      (∃ q, getField j "score" = some (Json.num q)) ∧
      (∃ l, getField j "label" = some (Json.str l) ∧
        (l = "positive" ∨ l = "negative" ∨ l = "neutral")) ∧
      (∃ s, getField j "reasoning" = some (Json.str s))) :=
  ⟨cleanResponse_fenced, validateSentiment_some_spec, validateSentiment_isSome_iff⟩

/-- C9 amended witness: a fenced two-character reply is cleaned to its body,
and the out-of-range sample object is accepted. -/
theorem classifier_validation_amended_witness :
    btick ∉ ['h', 'i'] ∧
    cleanResponse (fence7 ++ '\n' :: (['h', 'i'] ++ '\n' :: ticks3)) =
      trimChars ['h', 'i'] ∧
    (validateSentiment jBad).isSome :=
  ⟨by decide, classifier_validation_amended.1 ['h', 'i'] (by decide),
   (classifier_validation_amended.2.2 jBad).mpr
     ⟨⟨42, rfl⟩, ⟨"positive", rfl, Or.inl rfl⟩, ⟨"ok", rfl⟩⟩⟩

/-! ## Theorems: daily analytics aggregator (C1) -/

/-- A list of scored mentions splits exactly into the three label counts. -/
theorem length_eq_labelCounts (l : List Mention)
    (h : ∀ m ∈ l, m.sentiment.isSome = true) :
    l.length =
      labelCount .positive l + labelCount .negative l + labelCount .neutral l := by
  induction l with
  | nil => rfl
  | cons m rest ih =>
    have hm := h m (List.mem_cons_self m rest)
    have hrest := ih (fun x hx => h x (List.mem_cons_of_mem m hx))
    cases hs : m.sentiment with
    | none =>
      rw [hs] at hm
      simp at hm
    | some i =>
      cases hlab : i.label with
      | positive =>
        have e1 : labelCount .positive (m :: rest) = labelCount .positive rest + 1 := by
          simp [labelCount, List.countP_cons, hs, hlab]
        have e2 : labelCount .negative (m :: rest) = labelCount .negative rest := by
          simp [labelCount, List.countP_cons, hs, hlab]
        have e3 : labelCount .neutral (m :: rest) = labelCount .neutral rest := by
          simp [labelCount, List.countP_cons, hs, hlab]
        rw [List.length_cons, e1, e2, e3]
        omega
      | negative =>
        have e1 : labelCount .positive (m :: rest) = labelCount .positive rest := by
          simp [labelCount, List.countP_cons, hs, hlab]
        have e2 : labelCount .negative (m :: rest) = labelCount .negative rest + 1 := by
          simp [labelCount, List.countP_cons, hs, hlab]
        have e3 : labelCount .neutral (m :: rest) = labelCount .neutral rest := by
          simp [labelCount, List.countP_cons, hs, hlab]
        rw [List.length_cons, e1, e2, e3]
        omega
      | neutral =>
        have e1 : labelCount .positive (m :: rest) = labelCount .positive rest := by
          simp [labelCount, List.countP_cons, hs, hlab]
        have e2 : labelCount .negative (m :: rest) = labelCount .negative rest := by
          simp [labelCount, List.countP_cons, hs, hlab]
        have e3 : labelCount .neutral (m :: rest) = labelCount .neutral rest + 1 := by
          simp [labelCount, List.countP_cons, hs, hlab]
        rw [List.length_cons, e1, e2, e3]
        omega

/-- The recomputed day row always satisfies
`total_mentions = positive + negative + neutral`. -/
theorem computeRow_total_eq (ms : List Mention) (uid date : Nat) :
    (computeRow ms uid date).total_mentions =
      (computeRow ms uid date).positive_count +
        (computeRow ms uid date).negative_count +
        (computeRow ms uid date).neutral_count := by
  have h : ∀ m ∈ ms.filter (scoredOn uid date), m.sentiment.isSome = true := by
    intro m hm
    have hp := List.of_mem_filter hm
    simp only [scoredOn, Bool.and_eq_true] at hp
    exact hp.2
  exact length_eq_labelCounts _ h

/-- After an overwrite-upsert, the key's lookup returns the upserted row
(overwrite branch). -/
theorem findRow_map_upsert (rows : List AnalyticsRow) (r : AnalyticsRow) :
    rows.any (fun x => x.user_id == r.user_id && x.date == r.date) = true →
    (rows.map (fun x =>
        if x.user_id == r.user_id && x.date == r.date then r else x)).find?
      (fun x => x.user_id == r.user_id && x.date == r.date) = some r := by
  induction rows with
  | nil =>
    intro hany
    simp at hany
  | cons a l ih =>
    intro hany
    by_cases ha : (a.user_id == r.user_id && a.date == r.date) = true
    · rw [List.map_cons, if_pos ha, List.find?_cons]
      simp
    · have ha2 : (a.user_id == r.user_id && a.date == r.date) = false :=
        Bool.eq_false_iff.mpr ha
      have hany2 : l.any (fun x => x.user_id == r.user_id && x.date == r.date) = true := by
        simp only [List.any_cons, ha2, Bool.false_or] at hany
        exact hany
      rw [List.map_cons, if_neg ha, List.find?_cons]
      simp only [ha2]
      exact ih hany2

/-- After an insert-upsert, the key's lookup returns the appended row
(insert branch). -/
theorem findRow_append_new (rows : List AnalyticsRow) (r : AnalyticsRow) :
    rows.any (fun x => x.user_id == r.user_id && x.date == r.date) = false →
    (rows ++ [r]).find? (fun x => x.user_id == r.user_id && x.date == r.date) =
      some r := by
  induction rows with
  | nil =>
    intro _
    rw [List.nil_append, List.find?_cons]
    simp
  | cons a l ih =>
    intro hnone
    simp only [List.any_cons, Bool.or_eq_false_iff] at hnone
    rw [List.cons_append, List.find?_cons]
    simp only [hnone.1]
    exact ih hnone.2

/-- The upsert of the trigger always leaves the key's row equal to the freshly
computed aggregate. -/
theorem findRow_upsertRow (rows : List AnalyticsRow) (r : AnalyticsRow) :
    findRow (upsertRow rows r) r.user_id r.date = some r := by
  unfold findRow upsertRow
  by_cases hany : rows.any (fun x => x.user_id == r.user_id && x.date == r.date) = true
  · rw [if_pos hany]
    exact findRow_map_upsert rows r hany
  · have hany2 : rows.any (fun x => x.user_id == r.user_id && x.date == r.date) = false :=
      Bool.eq_false_iff.mpr hany
    rw [if_neg hany]
    exact findRow_append_new rows r hany2

/-- Induction core for C1: after a nonempty valid sequence of updates on
tenant `t`, day `d`, the stored `(t,d)` analytics row equals the aggregate
recomputed from the final mention table. -/
theorem runUpdates_core (t d : Nat) (s : PipelineState)
    (us : List (Nat × SentimentInfo)) (hv : ValidSeq t d s us) :
    us ≠ [] →
    findRow (runUpdates s t us).analytics t d =
      some (computeRow (runUpdates s t us).mentions t d) := by
  induction hv with
  | nil s0 =>
    intro hne
    exact absurd rfl hne
  | cons s0 u us2 m hfind hdate hfire htail ih =>
    intro _
    cases us2 with
    | nil =>
      have hmu : m.user_id = t := by
        have hp := List.find?_some hfind
        simp only [Bool.and_eq_true, beq_iff_eq] at hp
        exact hp.2
      have hstep : applyUpdate s0 t u.1 u.2 =
          { mentions := applySentiment t u.1 u.2 s0.mentions,
            analytics := upsertRow s0.analytics
              (computeRow (applySentiment t u.1 u.2 s0.mentions) m.user_id
                (dateOf m.posted_at)) } := by
        unfold applyUpdate
        rw [hfind]
        dsimp only
        rw [if_pos hfire]
      simp only [runUpdates]
      rw [hstep]
      dsimp only
      rw [hmu, hdate]
      exact findRow_upsertRow s0.analytics _
    | cons u2 us3 =>
      simp only [runUpdates]
      exact ih (by simp)

/-- C1: after any nonempty sequence of trigger-firing sentiment updates on
tenant `t`'s mentions posted on day `d`, the stored analytics row for `(t,d)`
equals the exact aggregate over all sentiment-scored mentions of `t` on `d` in
the final store; that aggregate satisfies
`total_mentions = positive_count + negative_count + neutral_count` and
`average_score = SUM(score) / total_mentions`. -/
theorem analytics_day_invariant (t d : Nat) (s : PipelineState)
    (us : List (Nat × SentimentInfo)) (hv : ValidSeq t d s us) (hne : us ≠ []) :
    findRow (runUpdates s t us).analytics t d =
      some (computeRow (runUpdates s t us).mentions t d) ∧
    (computeRow (runUpdates s t us).mentions t d).total_mentions =
      (computeRow (runUpdates s t us).mentions t d).positive_count +
        (computeRow (runUpdates s t us).mentions t d).negative_count +
        (computeRow (runUpdates s t us).mentions t d).neutral_count ∧
    (computeRow (runUpdates s t us).mentions t d).average_score =
      sumScores ((runUpdates s t us).mentions.filter (scoredOn t d)) /
        (((computeRow (runUpdates s t us).mentions t d).total_mentions : ℚ)) :=
  ⟨runUpdates_core t d s us hv hne, computeRow_total_eq _ _ _, rfl⟩

/-- C1 witness: one update scoring the single mention of tenant 0 posted on
day 0 leaves the day row equal to the aggregate. -/
theorem analytics_day_invariant_witness :
    ([((1 : Nat), scoredInfo)] ≠ ([] : List (Nat × SentimentInfo))) ∧
    findRow (runUpdates pipeState0 0 [(1, scoredInfo)]).analytics 0 0 =
      some (computeRow (runUpdates pipeState0 0 [(1, scoredInfo)]).mentions 0 0) ∧
    (computeRow (runUpdates pipeState0 0 [(1, scoredInfo)]).mentions 0 0).total_mentions =
      (computeRow (runUpdates pipeState0 0 [(1, scoredInfo)]).mentions 0 0).positive_count +
        (computeRow (runUpdates pipeState0 0 [(1, scoredInfo)]).mentions 0 0).negative_count +
        (computeRow (runUpdates pipeState0 0 [(1, scoredInfo)]).mentions 0 0).neutral_count ∧
    (computeRow (runUpdates pipeState0 0 [(1, scoredInfo)]).mentions 0 0).average_score =
      sumScores ((runUpdates pipeState0 0 [(1, scoredInfo)]).mentions.filter (scoredOn 0 0)) /
        (((computeRow (runUpdates pipeState0 0 [(1, scoredInfo)]).mentions 0 0).total_mentions : ℚ)) := by
  have hv : ValidSeq 0 0 pipeState0 [(1, scoredInfo)] :=
    ValidSeq.cons pipeState0 (1, scoredInfo) [] (plainMention 1 0)
      (by decide) (by decide) (by decide) (ValidSeq.nil _)
  have h := analytics_day_invariant 0 0 pipeState0 [(1, scoredInfo)] hv (by decide)
  exact ⟨by decide, h.1, h.2.1, h.2.2⟩

end Dashboard
